import Mathlib

/-!
Verification of the non-centered reparametrization transform from the
`docs/advanced/reparametrization.ipynb` notebook.

The notebook's hierarchical ice-cream model contains the deterministic node

  logit_p_shop = logit_p_shop_raw * logit_p_owner_scale[owner_idx]
                   + logit_p_owner_mean[owner_idx]

together with `p_shop = invlogit(logit_p_shop)` feeding a Binomial
likelihood, and separately the density `neals_funnel_likelihood(v, x) =
norm(0,1).pdf(v) * norm(0, exp(v)).pdf(x)`.  We embed these shallowly:
exact field arithmetic (ℚ for executable facts, ℝ for analytic and
distributional facts) stands in for IEEE doubles, lists for arrays, and
`Option`/`Except` for fallible operations.
-/

/-- Scalar core of the notebook's non-centered transform
(`logit_p_shop_raw * scale + mean`): `effective = raw * scale + loc`. -/
def transform {α : Type} [Mul α] [Add α] (raw loc scale : α) : α :=
  raw * scale + loc

/-- Element-wise application of `transform` to arrays of equal broadcast
shape, as the notebook applies it to equal-length vectors. -/
def transformList {α : Type} [Mul α] [Add α] : List α → List α → List α → List α
  | r :: rs, l :: ls, s :: ss => transform r l s :: transformList rs ls ss
  | _, _, _ => []

/-- `transform` with scalar `loc` and `scale` broadcast over an array `raw`. -/
def transformBcast {α : Type} [Mul α] [Add α] (raw : List α) (loc scale : α) : List α :=
  raw.map (fun r => transform r loc scale)

/-- Error taxonomy of the transform pair. -/
inductive TransformError where
  | InvalidParameterError
  | DivisionUndefinedError
  deriving DecidableEq

/-- Modelled from the spec: the inverse operation `untransform` does not
appear anywhere in the notebook (only the forward deterministic node does);
the spec gives `raw = (effective - loc) / scale`, with `scale == 0`
signalling `DivisionUndefinedError`, never silently coerced to a default. -/
def untransform {α : Type} [DivisionRing α] [DecidableEq α] (effective loc scale : α) :
    Except TransformError α :=
  if scale = 0 then Except.error TransformError.DivisionUndefinedError
  else Except.ok ((effective - loc) / scale)

/-- Gather-then-transform step of the hierarchical model: for each pair of a
raw draw and an owner index, look up the owner-level scale and mean and apply
`transform`.  `none` models an out-of-bounds array access. -/
def affineIndexed {α : Type} [Mul α] [Add α] (scale mean : List α) :
    List (α × ℕ) → Option (List α)
  | [] => some []
  | (r, j) :: rest => do
      let s ← scale.get? j
      let m ← mean.get? j
      let tail ← affineIndexed scale mean rest
      pure (transform r m s :: tail)

/-- The notebook's per-shop deterministic node:
`logit_p_shop_raw * logit_p_owner_scale[owner_idx] + logit_p_owner_mean[owner_idx]`. -/
def logit_p_shop {α : Type} [Mul α] [Add α] (raw scale mean : List α)
    (owner_idx : List ℕ) : Option (List α) :=
  affineIndexed scale mean (raw.zip owner_idx)

/-- The inverse-logit used for `p_shop = pm.invlogit(logit_p_shop)`:
`1 / (1 + exp(-z))`. -/
noncomputable def invlogit (z : ℝ) : ℝ :=
  1 / (1 + Real.exp (-z))

/-- Density of `norm(mu, sigma)` as scipy parameterizes it (`sigma` is the
standard deviation). -/
noncomputable def normPdf (mu sigma x : ℝ) : ℝ :=
  (sigma * Real.sqrt (2 * Real.pi))⁻¹ * Real.exp (-((x - mu) ^ 2) / (2 * sigma ^ 2))

/-- The notebook's `neals_funnel_likelihood(v, x) = norm(0, 1).pdf(v) *
norm(0, exp(v)).pdf(x)`. -/
noncomputable def neals_funnel_likelihood (v x : ℝ) : ℝ :=
  normPdf 0 1 v * normPdf 0 (Real.exp v) x

/-- Helper: each entry of `transformList` is `transform` of the
corresponding entries, with `none` exactly when some input runs out. -/
theorem transformList_get? {α : Type} [Mul α] [Add α] (raw : List α) :
    ∀ (loc scale : List α) (i : ℕ),
      (transformList raw loc scale).get? i = (do
        let r ← raw.get? i
        let l ← loc.get? i
        let s ← scale.get? i
        pure (transform r l s)) := by
  induction raw with
  | nil => intro loc scale i; simp [transformList]
  | cons r rs ih =>
    intro loc scale i
    cases loc with
    | nil => cases i <;> simp [transformList]
    | cons l ls =>
      cases scale with
      | nil => cases i <;> simp [transformList]
      | cons s ss =>
        cases i with
        | zero => simp [transformList]
        | succ i => simpa [transformList] using ih ls ss i

/-- C1: the forward operation computes `effective = raw * scale + loc`
element-wise under (equal-shape) broadcasting, and in particular
`transform(raw=[1,1,1], loc=[0,1,2], scale=[1,1,1]) = [1,2,3]`. -/
theorem transform_elementwise_and_broadcast :
    (∀ (raw loc scale : List ℚ) (i : ℕ),
      (transformList raw loc scale).get? i = (do
        let r ← raw.get? i
        let l ← loc.get? i
        let s ← scale.get? i
        pure (r * s + l))) ∧
    transformList [(1 : ℚ), 1, 1] [0, 1, 2] [1, 1, 1] = [1, 2, 3] := by
  constructor
  · intro raw loc scale i
    simpa [transform] using transformList_get? raw loc scale i
  · norm_num [transformList, transform]

/-- C2: pushing a standard normal draw through the transform yields exactly
the normal distribution with mean `loc` and standard deviation `scale`
(variance `scale ^ 2`) — an identity of measures, not an approximation. -/
theorem transform_map_gaussian (loc scale : ℝ) (h : 0 < scale) :
    MeasureTheory.Measure.map (fun raw => transform raw loc scale)
        (ProbabilityTheory.gaussianReal 0 1) =
      ProbabilityTheory.gaussianReal loc ⟨scale ^ 2, sq_nonneg scale⟩ := by
  have hfun : (fun raw : ℝ => transform raw loc scale) =
      (fun x : ℝ => x + loc) ∘ (fun x : ℝ => x * scale) := rfl
  rw [hfun, ← MeasureTheory.Measure.map_map (measurable_id'.add_const loc)
    (measurable_id'.mul_const scale)]
  rw [ProbabilityTheory.gaussianReal_map_mul_const scale,
    ProbabilityTheory.gaussianReal_map_add_const loc]
  rw [mul_zero, zero_add, mul_one]

theorem transform_map_gaussian_witness :
    (0 : ℝ) < 2 ∧
      MeasureTheory.Measure.map (fun raw => transform raw (5 : ℝ) 2)
          (ProbabilityTheory.gaussianReal 0 1) =
        ProbabilityTheory.gaussianReal 5 ⟨(2 : ℝ) ^ 2, sq_nonneg 2⟩ :=
  ⟨two_pos, transform_map_gaussian 5 2 two_pos⟩

/-- C3 counterexample: the notebook's transform performs no scale
validation; at `raw = [0.5]`, `loc = 0`, `scale = -1` it returns the value
`[-0.5]` instead of signalling any error (its codomain has no error
outcome at all). -/
theorem transform_negative_scale_returns_value :
    transformBcast [(1 : ℚ) / 2] 0 (-1) = [-(1 / 2)] := by
  norm_num [transformBcast, transform]

/-- C3 amended: for every input — including inputs with non-positive scale —
the transform returns `raw * scale + loc` element-wise and raises nothing;
in particular `transform(raw=[0.5], loc=0.0, scale=-1.0) = [-0.5]`.
Positivity of the scale is the upstream Exponential prior's business, not
checked inside the transform. -/
theorem transform_no_scale_validation :
    (∀ (raw : List ℚ) (loc scale : ℚ) (i : ℕ),
      (transformBcast raw loc scale).get? i = (raw.get? i).map (fun r => r * scale + loc)) ∧
    transformBcast [(1 : ℚ) / 2] 0 (-1) = [-(1 / 2)] := by
  constructor
  · intro raw loc scale i
    simp [transformBcast, transform]
  · norm_num [transformBcast, transform]

/-- C4: round-trip identity `untransform(transform(raw, loc, scale), loc,
scale) = raw` for every `scale ≠ 0` (exact in the field embedding, which
models reals without rounding). -/
theorem untransform_transform_roundtrip (raw loc scale : ℚ) (h : scale ≠ 0) :
    untransform (transform raw loc scale) loc scale = Except.ok raw := by
  simp only [untransform, transform, if_neg h, add_sub_cancel_right,
    mul_div_cancel_right₀ _ h]

theorem untransform_transform_roundtrip_witness :
    (2 : ℚ) ≠ 0 ∧ untransform (transform (3 : ℚ) 5 2) 5 2 = Except.ok 3 :=
  ⟨two_ne_zero, untransform_transform_roundtrip 3 5 2 two_ne_zero⟩

/-- C5: the inverse operation at `scale = 0` returns
`DivisionUndefinedError` for every `effective` and `loc`; no default value
is ever substituted. -/
theorem untransform_zero_scale (effective loc : ℚ) :
    untransform effective loc 0 = Except.error TransformError.DivisionUndefinedError := by
  simp [untransform]

/-- C6: `transform(0, loc, scale) = loc` exactly, for every valid
(positive) scale. -/
theorem transform_zero_raw (loc scale : ℚ) (h : 0 < scale) :
    transform 0 loc scale = loc := by
  simp [transform]

theorem transform_zero_raw_witness :
    (0 : ℚ) < 2 ∧ transform 0 (7 : ℚ) 2 = 7 :=
  ⟨two_pos, transform_zero_raw 7 2 two_pos⟩

/-- C7: the transform is deterministic: any two invocations with equal
`raw`, `loc`, `scale` inputs produce equal outputs.  In this embedding it
is a pure function of its three arguments, so there is no state for an
invocation to read or mutate. -/
theorem transform_deterministic (r₁ r₂ l₁ l₂ s₁ s₂ : ℚ)
    (hr : r₁ = r₂) (hl : l₁ = l₂) (hs : s₁ = s₂) :
    transform r₁ l₁ s₁ = transform r₂ l₂ s₂ := by
  rw [hr, hl, hs]

theorem transform_deterministic_witness :
    ((1 : ℚ) = 1 ∧ (2 : ℚ) = 2 ∧ (3 : ℚ) = 3) ∧ transform (1 : ℚ) 2 3 = transform 1 2 3 :=
  ⟨⟨rfl, rfl, rfl⟩, transform_deterministic 1 1 2 2 3 3 rfl rfl rfl⟩

/-- Helper: the gather-then-transform step succeeds whenever every index it
gathers is within both owner-level arrays. -/
theorem affineIndexed_isSome {α : Type} [Mul α] [Add α] (scale mean : List α) :
    ∀ l : List (α × ℕ), (∀ p ∈ l, p.2 < scale.length ∧ p.2 < mean.length) →
      (affineIndexed scale mean l).isSome := by
  intro l
  induction l with
  | nil => intro _; simp [affineIndexed]
  | cons p rest ih =>
    intro h
    obtain ⟨hs, hm⟩ := h p (List.mem_cons_self p rest)
    obtain ⟨tail, htail⟩ := Option.isSome_iff_exists.mp
      (ih fun q hq => h q (List.mem_cons_of_mem p hq))
    obtain ⟨r, j⟩ := p
    simp [affineIndexed, List.getElem?_eq_getElem hs, List.getElem?_eq_getElem hm, htail]

/-- C8: when every entry of `owner_idx` lies in `[0, n_owners)` and the
owner-level scale and mean arrays have length `n_owners`, every gather in
`logit_p_shop` is in bounds and the transform is total (returns `some`). -/
theorem logit_p_shop_total (raw scale mean : List ℚ) (owner_idx : List ℕ) (n_owners : ℕ)
    (hs : scale.length = n_owners) (hm : mean.length = n_owners)
    (hidx : ∀ j ∈ owner_idx, j < n_owners) :
    (logit_p_shop raw scale mean owner_idx).isSome := by
  apply affineIndexed_isSome
  intro p hp
  have h2 : p.2 ∈ owner_idx := (List.of_mem_zip hp).2
  exact ⟨by rw [hs]; exact hidx p.2 h2, by rw [hm]; exact hidx p.2 h2⟩

theorem logit_p_shop_total_witness :
    (([(3 : ℚ), 4].length = 2 ∧ [(5 : ℚ), 6].length = 2) ∧ ∀ j ∈ [0, 1], j < 2) ∧
      (logit_p_shop [(1 : ℚ), 2] [3, 4] [5, 6] [0, 1]).isSome :=
  ⟨⟨⟨rfl, rfl⟩, by decide⟩, logit_p_shop_total [1, 2] [3, 4] [5, 6] [0, 1] 2 rfl rfl (by decide)⟩

/-- C9: for every real `z`, `invlogit z = 1 / (1 + exp (-z))` lies strictly
inside the open interval `(0, 1)`, so `p_shop` is always a well-defined
Binomial probability parameter. -/
theorem invlogit_mem_open_unit_interval (z : ℝ) : 0 < invlogit z ∧ invlogit z < 1 := by
  have h : 0 < Real.exp (-z) := Real.exp_pos _
  have h1 : 0 < 1 + Real.exp (-z) := by linarith
  unfold invlogit
  constructor
  · exact div_pos one_pos h1
  · rw [div_lt_one h1]; linarith

/-- C10: `neals_funnel_likelihood` is total and non-negative on all of
ℝ × ℝ: the scale `exp v` of the second factor is strictly positive for
every real `v`, and the returned product of densities is `≥ 0`. -/
theorem neals_funnel_likelihood_nonneg (v x : ℝ) :
    0 < Real.exp v ∧ 0 ≤ neals_funnel_likelihood v x := by
  refine ⟨Real.exp_pos v, ?_⟩
  unfold neals_funnel_likelihood normPdf
  positivity
